import Mathlib

/-!
# PyClicker: a shallow embedding of the click-scheduling engine

This file embeds the core of `pyclicker_app.py` in Lean 4:

* `ClickConfig` mirrors the frozen dataclass of the same name.
* `ClickWorker.run` is modelled by `runWorker`, built from `countdown`
  (the start-delay loop), `outerLoop` (the `while not self._stop.is_set()`
  scheduler loop) and `innerLoop` (the bounded catch-up loop).
* The environment `Env` supplies the three sources of nondeterminism the
  worker observes: the monotonic clock (`time.perf_counter`), the result of
  each `_do_click` call (success, `pyautogui.FailSafeException`, or another
  exception), and the moment at which an external thread calls
  `self._stop.set()` (indexed by the number of `is_set()` polls performed).
* `MainWindow.interval_seconds`, `MainWindow.make_config` and
  `MainWindow.start_clicking` are modelled by functions of the same names
  over a `UiState`/`CtrlSt` pair.

Events (`started` / `stopped` / `tick` / `status` / `error`) are collected
in emission order, so temporal statements about the worker's event stream
become statements about lists.
-/

/-- The five Qt signals of `ClickWorker`, in emission order. -/
inductive Event where
  | started : Event
  | stopped : Event
  | tick : Nat → Event
  | status : String → Event
  | error : String → Event
deriving DecidableEq, Repr

/-- Result of one `_do_click()` call: normal return, the
`pyautogui.FailSafeException`, or any other exception (with its message). -/
inductive ClickRes where
  | ok : ClickRes
  | failsafe : ClickRes
  | err : String → ClickRes
deriving DecidableEq, Repr

/-- How the inner catch-up loop ended: its `while` condition became false
(`cond`), the click-limit `break`, the failsafe `break`, or an exception
propagating out of `_do_click`. -/
inductive InnerExit where
  | cond : InnerExit
  | limit : InnerExit
  | failsafe : InnerExit
  | exc : String → InnerExit
deriving DecidableEq, Repr

/-- How the outer scheduler loop ended: the stop flag was observed set,
an exception propagated, or the model ran out of fuel (the Python loop
would simply have kept iterating). -/
inductive OuterExit where
  | stopFlag : OuterExit
  | exc : String → OuterExit
  | fuelOut : OuterExit
deriving DecidableEq, Repr

/-- Mirror of the frozen `ClickConfig` dataclass. -/
structure ClickConfig where
  interval_sec : ℚ
  button : String
  double_click : Bool
  max_clicks : Nat
  start_delay_sec : Nat
  fixed_pos_enabled : Bool
  fixed_x : Int
  fixed_y : Int
deriving DecidableEq, Repr

/-- Worker-side mutable state: `self._count`, the local `next_t`, and the
internally-set part of `self._stop`; plus counters of how many stop-flag
polls, `_do_click` calls and clock reads have happened (these index into
the environment). -/
structure St where
  count : Nat
  next_t : ℚ
  intStop : Bool
  polls : Nat
  clicks : Nat
  clocks : Nat
deriving DecidableEq, Repr

/-- The worker's environment: the clock value returned by the j-th
`time.perf_counter()` call, the outcome of the i-th `_do_click()` call, and
(optionally) the poll index from which `_stop.is_set()` reads true because
some other thread called `set()`. -/
structure Env where
  clock : Nat → ℚ
  outcome : Nat → ClickRes
  extStopAt : Option Nat

def incPolls (st : St) : St := { st with polls := st.polls + 1 }

def incClicks (st : St) : St := { st with clicks := st.clicks + 1 }

def incClocks (st : St) : St := { st with clocks := st.clocks + 1 }

def addCount (n : Nat) (st : St) : St := { st with count := st.count + n }

def setStop (st : St) : St := { st with intStop := true }

def addNext (q : ℚ) (st : St) : St := { st with next_t := st.next_t + q }

def setNext (q : ℚ) (st : St) : St := { st with next_t := q }

/-- `self._stop.is_set()`: true once set internally (limit / failsafe) or
once the external `set()` has happened, i.e. from poll index
`extStopAt` on. -/
def stopIsSet (env : Env) (st : St) : Bool :=
  st.intStop ||
    (match env.extStopAt with
     | some k => decide (k ≤ st.polls)
     | none => false)

/-- Number of clicks one `_do_click()` contributes: 2 when double-click. -/
def clicksPerTick (cfg : ClickConfig) : Nat :=
  if cfg.double_click then 2 else 1

/-- The pyautogui calls one `_do_click()` performs, in order. -/
inductive SynthAction where
  | moveTo : Int → Int → SynthAction
  | click : String → Nat → SynthAction
deriving DecidableEq, Repr

/-- `ClickWorker._do_click`: optional `moveTo` to the fixed position,
then one `click` call issuing 1 or 2 clicks. -/
def do_click_actions (cfg : ClickConfig) : List SynthAction :=
  (if cfg.fixed_pos_enabled then [SynthAction.moveTo cfg.fixed_x cfg.fixed_y] else []) ++
    (if cfg.double_click then [SynthAction.click cfg.button 2]
     else [SynthAction.click cfg.button 1])

def startingMsg (t : Nat) : String :=
  "Starting in " ++ toString t ++ "s... (F9 PANIC / top-left FAILSAFE)"

def runningMsg : String := "Running (F8 toggle / F9 panic / top-left failsafe)"

def failsafeMsg : String := "FAILSAFE triggered (top-left). Stopped."

def limitMsg : String := "Click limit reached. Stopped."

/-- Python's binary `max`, written out so that it evaluates. -/
def ratMax (a b : ℚ) : ℚ := if a ≤ b then b else a

/-- `max_catchup = 20` in `ClickWorker.run`. -/
def maxCatchup : Nat := 20

/-- The inner catch-up loop of `ClickWorker.run`, fuel counting the
remaining `catch < max_catchup` budget.  `now` is the local variable of
the same name.  Faithful points: the `while` condition short-circuits
(`now >= next_t` is tested before the stop flag is polled); `tick` is
emitted before the limit check; the limit and failsafe branches set the
stop flag and break; other exceptions propagate (`InnerExit.exc`). -/
def innerLoop (cfg : ClickConfig) (env : Env) (interval : ℚ) :
    Nat → ℚ → St → List Event × St × InnerExit
  | 0, _, st => ([], st, InnerExit.cond)
  | fuel + 1, now, st =>
    if now < st.next_t then ([], st, InnerExit.cond)
    else
      let s := stopIsSet env st
      let st1 := incPolls st
      if s then ([], st1, InnerExit.cond)
      else
        let o := env.outcome st1.clicks
        let st2 := incClicks st1
        match o with
        | ClickRes.err m => ([], st2, InnerExit.exc m)
        | ClickRes.failsafe =>
          ([Event.status failsafeMsg], setStop st2, InnerExit.failsafe)
        | ClickRes.ok =>
          let st3 := addCount (clicksPerTick cfg) st2
          if 0 < cfg.max_clicks ∧ cfg.max_clicks ≤ st3.count then
            ([Event.tick st3.count, Event.status limitMsg], setStop st3, InnerExit.limit)
          else
            let st4 := addNext interval st3
            let now2 := env.clock st4.clocks
            let st5 := incClocks st4
            let r := innerLoop cfg env interval fuel now2 st5
            (Event.tick st3.count :: r.1, r.2)

/-- The outer `while not self._stop.is_set()` loop of `ClickWorker.run`.
Each pass polls the stop flag, reads the clock, and either runs one
bounded catch-up burst or sleeps (the sleep has no modelled effect). -/
def outerLoop (cfg : ClickConfig) (env : Env) (interval : ℚ) :
    Nat → St → List Event × St × OuterExit
  | 0, st => ([], st, OuterExit.fuelOut)
  | fuel + 1, st =>
    let s := stopIsSet env st
    let st1 := incPolls st
    if s then ([], st1, OuterExit.stopFlag)
    else
      let now := env.clock st1.clocks
      let st2 := incClocks st1
      if st2.next_t ≤ now then
        match innerLoop cfg env interval maxCatchup now st2 with
        | (ievs, stA, InnerExit.exc m) => (ievs, stA, OuterExit.exc m)
        | (ievs, stA, _) =>
          let r := outerLoop cfg env interval fuel stA
          (ievs ++ r.1, r.2)
      else
        outerLoop cfg env interval fuel st2

/-- The start-delay countdown `for t in range(start_delay_sec, 0, -1)`.
On observing the stop flag it emits `stopped` and returns early (the
`finally` block will emit `stopped` again); otherwise it emits one
status per remaining second. -/
def countdown (env : Env) : Nat → St → List Event × St × Bool
  | 0, st => ([], st, false)
  | t + 1, st =>
    let s := stopIsSet env st
    let st1 := incPolls st
    if s then ([Event.stopped], st1, true)
    else
      let r := countdown env t st1
      (Event.status (startingMsg (t + 1)) :: r.1, r.2)

/-- Fresh worker state: `self._stop.clear(); self._count = 0`. -/
def initSt : St := { count := 0, next_t := 0, intStop := false, polls := 0, clicks := 0, clocks := 0 }

/-- `ClickWorker.run`.  Returns `none` when the outer loop's fuel runs out
(the Python loop would still be iterating); otherwise the full event list
in emission order together with the final worker state.  The `finally`
block appends the terminal `stopped`; an uncaught exception inserts an
`error` event before it. -/
def runWorker (cfg : ClickConfig) (env : Env) (fuel : Nat) :
    Option (List Event × St) :=
  let c := countdown env cfg.start_delay_sec initSt
  if c.2.2 then some (c.1 ++ [Event.stopped], c.2.1)
  else
    let interval := ratMax (1/1000 : ℚ) cfg.interval_sec
    let now0 := env.clock c.2.1.clocks
    let st3 := setNext now0 (incClocks c.2.1)
    match outerLoop cfg env interval fuel st3 with
    | (_, _, OuterExit.fuelOut) => none
    | (oevs, st4, OuterExit.stopFlag) =>
      some (c.1 ++ [Event.status runningMsg, Event.started] ++ oevs ++ [Event.stopped], st4)
    | (oevs, st4, OuterExit.exc m) =>
      some (c.1 ++ [Event.status runningMsg, Event.started] ++ oevs
              ++ [Event.error m, Event.stopped], st4)

/-- The tick payloads of an event list, in order. -/
def tickValues (evs : List Event) : List Nat :=
  evs.filterMap fun e =>
    match e with
    | Event.tick n => some n
    | _ => none

/-- Number of `stopped` events in a list. -/
def countStopped (evs : List Event) : Nat :=
  evs.countP fun e =>
    match e with
    | Event.stopped => true
    | _ => false

/-- Number of `error` events in a list. -/
def countErrors (evs : List Event) : Nat :=
  evs.countP fun e =>
    match e with
    | Event.error _ => true
    | _ => false

/-! ## The controller side (`MainWindow`) -/

/-- The UI widget values `make_config` reads (spin boxes hold clamped
non-negative integers). -/
structure UiState where
  spin_min : Nat
  spin_sec : Nat
  spin_ms : Nat
  spin_delay : Nat
  spin_limit : Nat
  cmb_button : String
  chk_double : Bool
  chk_fixed : Bool
  spin_x : Int
  spin_y : Int
deriving DecidableEq, Repr

/-- `MainWindow.interval_seconds`: total milliseconds over 1000. -/
def interval_seconds (ui : UiState) : ℚ :=
  ((ui.spin_min * 60000 + ui.spin_sec * 1000 + ui.spin_ms : Nat) : ℚ) / 1000

def intervalErrMsg : String := "Interval must be > 0ms (set at least 1ms)."

/-- `MainWindow.make_config`: raises `ValueError` when the combined
interval is not positive, else builds the frozen config. -/
def make_config (ui : UiState) : Except String ClickConfig :=
  let interval := interval_seconds ui
  if interval ≤ 0 then Except.error intervalErrMsg
  else
    Except.ok
      { interval_sec := interval
        button := ui.cmb_button
        double_click := ui.chk_double
        max_clicks := ui.spin_limit
        start_delay_sec := ui.spin_delay
        fixed_pos_enabled := ui.chk_fixed
        fixed_x := ui.spin_x
        fixed_y := ui.spin_y }

/-- Controller state of `MainWindow`: `_running`, `_thread`, `_worker`
(thread and worker carried as fresh identities drawn from `nextId`), and
the two labels `start_clicking` writes. -/
structure CtrlSt where
  running : Bool
  thread : Option Nat
  worker : Option (Nat × ClickConfig)
  nextId : Nat
  lbl_clicks : String
  lbl_status : String
deriving DecidableEq, Repr

/-- `MainWindow.start_clicking`: no-op while `_running`; on a validation
error shows a warning and changes nothing; otherwise creates a fresh
thread/worker pair and updates the labels. -/
def start_clicking (ui : UiState) (st : CtrlSt) : CtrlSt :=
  if st.running then st
  else
    match make_config ui with
    | Except.error _ => st
    | Except.ok cfg =>
      { running := st.running
        thread := some st.nextId
        worker := some (st.nextId, cfg)
        nextId := st.nextId + 1
        lbl_clicks := "Clicks: 0"
        lbl_status := "Status: starting..." }

/-! ## Concrete inputs used to exercise the model -/

/-- Clock returning its call index; all clicks succeed; no stop request. -/
def envOkId : Env :=
  { clock := fun n => (n : ℚ), outcome := fun _ => ClickRes.ok, extStopAt := none }

/-- All clicks succeed, but an external stop arrives before the very
first poll. -/
def envStop0 : Env :=
  { clock := fun _ => 0, outcome := fun _ => ClickRes.ok, extStopAt := some 0 }

/-- External stop arriving before the second poll. -/
def envStopK1 : Env :=
  { clock := fun _ => 0, outcome := fun _ => ClickRes.ok, extStopAt := some 1 }

/-- The second click attempt hits the pyautogui failsafe. -/
def envFs1 : Env :=
  { clock := fun n => (n : ℚ),
    outcome := fun i => if i = 1 then ClickRes.failsafe else ClickRes.ok,
    extStopAt := none }

/-- The second click attempt raises a non-failsafe exception. -/
def envErr1 : Env :=
  { clock := fun n => (n : ℚ),
    outcome := fun i => if i = 1 then ClickRes.err "boom" else ClickRes.ok,
    extStopAt := none }

/-- Constant clock far ahead of schedule: a 1000-interval backlog. -/
def envBurst : Env :=
  { clock := fun _ => 1000, outcome := fun _ => ClickRes.ok, extStopAt := none }

/-- 1-second interval, single click, stop after 3 clicks, no delay. -/
def cfgLim3 : ClickConfig :=
  { interval_sec := 1, button := "left", double_click := false, max_clicks := 3,
    start_delay_sec := 0, fixed_pos_enabled := false, fixed_x := 0, fixed_y := 0 }

/-- 1-second interval, single click, unbounded, no delay. -/
def cfgInf : ClickConfig :=
  { interval_sec := 1, button := "left", double_click := false, max_clicks := 0,
    start_delay_sec := 0, fixed_pos_enabled := false, fixed_x := 0, fixed_y := 0 }

/-- Like `cfgInf` but with a 1-second start delay. -/
def cfgDelay1 : ClickConfig :=
  { interval_sec := 1, button := "left", double_click := false, max_clicks := 0,
    start_delay_sec := 1, fixed_pos_enabled := false, fixed_x := 0, fixed_y := 0 }

/-- Like `cfgInf` but with a 3-second start delay. -/
def cfgDelay3 : ClickConfig :=
  { interval_sec := 1, button := "left", double_click := false, max_clicks := 0,
    start_delay_sec := 3, fixed_pos_enabled := false, fixed_x := 0, fixed_y := 0 }

/-- Fixed-position double-click configuration. -/
def cfgFix : ClickConfig :=
  { interval_sec := 1, button := "right", double_click := true, max_clicks := 0,
    start_delay_sec := 0, fixed_pos_enabled := true, fixed_x := 5, fixed_y := 7 }

/-- All-zero UI settings: combined interval 0 ms. -/
def ui0 : UiState :=
  { spin_min := 0, spin_sec := 0, spin_ms := 0, spin_delay := 0, spin_limit := 0,
    cmb_button := "left", chk_double := false, chk_fixed := false,
    spin_x := 0, spin_y := 0 }

/-- A controller currently running a worker (identity 6). -/
def ctrlRun : CtrlSt :=
  { running := true, thread := some 6, worker := some (6, cfgInf), nextId := 7,
    lbl_clicks := "Clicks: 41", lbl_status := "Status: running" }

/-! ## Small simp lemmas about the state helpers and `tickValues` -/

@[simp] lemma incPolls_count (st : St) : (incPolls st).count = st.count := rfl

@[simp] lemma incPolls_next_t (st : St) : (incPolls st).next_t = st.next_t := rfl

@[simp] lemma incPolls_intStop (st : St) : (incPolls st).intStop = st.intStop := rfl

@[simp] lemma incPolls_polls (st : St) : (incPolls st).polls = st.polls + 1 := rfl

@[simp] lemma incPolls_clicks (st : St) : (incPolls st).clicks = st.clicks := rfl

@[simp] lemma incPolls_clocks (st : St) : (incPolls st).clocks = st.clocks := rfl

@[simp] lemma incClicks_count (st : St) : (incClicks st).count = st.count := rfl

@[simp] lemma incClicks_next_t (st : St) : (incClicks st).next_t = st.next_t := rfl

@[simp] lemma incClicks_intStop (st : St) : (incClicks st).intStop = st.intStop := rfl

@[simp] lemma incClicks_polls (st : St) : (incClicks st).polls = st.polls := rfl

@[simp] lemma incClicks_clicks (st : St) : (incClicks st).clicks = st.clicks + 1 := rfl

@[simp] lemma incClicks_clocks (st : St) : (incClicks st).clocks = st.clocks := rfl

@[simp] lemma incClocks_count (st : St) : (incClocks st).count = st.count := rfl

@[simp] lemma incClocks_next_t (st : St) : (incClocks st).next_t = st.next_t := rfl

@[simp] lemma incClocks_intStop (st : St) : (incClocks st).intStop = st.intStop := rfl

@[simp] lemma incClocks_polls (st : St) : (incClocks st).polls = st.polls := rfl

@[simp] lemma incClocks_clicks (st : St) : (incClocks st).clicks = st.clicks := rfl

@[simp] lemma incClocks_clocks (st : St) : (incClocks st).clocks = st.clocks + 1 := rfl

@[simp] lemma addCount_count (n : Nat) (st : St) : (addCount n st).count = st.count + n := rfl

@[simp] lemma addCount_next_t (n : Nat) (st : St) : (addCount n st).next_t = st.next_t := rfl

@[simp] lemma addCount_intStop (n : Nat) (st : St) : (addCount n st).intStop = st.intStop := rfl

@[simp] lemma addCount_polls (n : Nat) (st : St) : (addCount n st).polls = st.polls := rfl

@[simp] lemma addCount_clicks (n : Nat) (st : St) : (addCount n st).clicks = st.clicks := rfl

@[simp] lemma addCount_clocks (n : Nat) (st : St) : (addCount n st).clocks = st.clocks := rfl

@[simp] lemma setStop_count (st : St) : (setStop st).count = st.count := rfl

@[simp] lemma setStop_next_t (st : St) : (setStop st).next_t = st.next_t := rfl

@[simp] lemma setStop_intStop (st : St) : (setStop st).intStop = true := rfl

@[simp] lemma setStop_polls (st : St) : (setStop st).polls = st.polls := rfl

@[simp] lemma setStop_clicks (st : St) : (setStop st).clicks = st.clicks := rfl

@[simp] lemma setStop_clocks (st : St) : (setStop st).clocks = st.clocks := rfl

@[simp] lemma addNext_count (q : ℚ) (st : St) : (addNext q st).count = st.count := rfl

@[simp] lemma addNext_next_t (q : ℚ) (st : St) : (addNext q st).next_t = st.next_t + q := rfl

@[simp] lemma addNext_intStop (q : ℚ) (st : St) : (addNext q st).intStop = st.intStop := rfl

@[simp] lemma addNext_polls (q : ℚ) (st : St) : (addNext q st).polls = st.polls := rfl

@[simp] lemma addNext_clicks (q : ℚ) (st : St) : (addNext q st).clicks = st.clicks := rfl

@[simp] lemma addNext_clocks (q : ℚ) (st : St) : (addNext q st).clocks = st.clocks := rfl

@[simp] lemma setNext_count (q : ℚ) (st : St) : (setNext q st).count = st.count := rfl

@[simp] lemma setNext_next_t (q : ℚ) (st : St) : (setNext q st).next_t = q := rfl

@[simp] lemma setNext_intStop (q : ℚ) (st : St) : (setNext q st).intStop = st.intStop := rfl

@[simp] lemma setNext_polls (q : ℚ) (st : St) : (setNext q st).polls = st.polls := rfl

@[simp] lemma setNext_clicks (q : ℚ) (st : St) : (setNext q st).clicks = st.clicks := rfl

@[simp] lemma setNext_clocks (q : ℚ) (st : St) : (setNext q st).clocks = st.clocks := rfl

@[simp] lemma tickValues_nil : tickValues [] = [] := rfl

@[simp] lemma tickValues_cons_tick (n : Nat) (l : List Event) :
    tickValues (Event.tick n :: l) = n :: tickValues l := rfl

@[simp] lemma tickValues_cons_status (s : String) (l : List Event) :
    tickValues (Event.status s :: l) = tickValues l := rfl

@[simp] lemma tickValues_cons_started (l : List Event) :
    tickValues (Event.started :: l) = tickValues l := rfl

@[simp] lemma tickValues_cons_stopped (l : List Event) :
    tickValues (Event.stopped :: l) = tickValues l := rfl

@[simp] lemma tickValues_cons_error (s : String) (l : List Event) :
    tickValues (Event.error s :: l) = tickValues l := rfl

@[simp] lemma tickValues_append (l1 l2 : List Event) :
    tickValues (l1 ++ l2) = tickValues l1 ++ tickValues l2 :=
  List.filterMap_append l1 l2 _

/-! ## The status strings are pairwise distinguishable where needed -/

lemma startingMsg_ne_limitMsg (t : Nat) : startingMsg t ≠ limitMsg := by
  intro h
  have hl := congrArg String.length h
  rw [startingMsg, limitMsg] at hl
  rw [String.length_append, String.length_append] at hl
  have h1 : "Starting in ".length = 12 := by decide
  have h2 : "s... (F9 PANIC / top-left FAILSAFE)".length = 35 := by decide
  have h3 : "Click limit reached. Stopped.".length = 29 := by decide
  rw [h1, h2, h3] at hl
  omega

lemma startingMsg_ne_failsafeMsg (t : Nat) : startingMsg t ≠ failsafeMsg := by
  intro h
  have hl := congrArg String.length h
  rw [startingMsg, failsafeMsg] at hl
  rw [String.length_append, String.length_append] at hl
  have h1 : "Starting in ".length = 12 := by decide
  have h2 : "s... (F9 PANIC / top-left FAILSAFE)".length = 35 := by decide
  have h3 : "FAILSAFE triggered (top-left). Stopped.".length = 39 := by decide
  rw [h1, h2, h3] at hl
  omega

lemma runningMsg_ne_limitMsg : runningMsg ≠ limitMsg := by decide

lemma runningMsg_ne_failsafeMsg : runningMsg ≠ failsafeMsg := by decide

lemma failsafeMsg_ne_limitMsg : failsafeMsg ≠ limitMsg := by decide

/-! ## Characterization of the inner catch-up loop

One induction establishes everything the claims need about a single
burst: the click-attempt budget (`fuel` bounds new `_do_click` calls),
the exact shape of the tick stream (consecutive multiples of
`clicksPerTick` starting from the entry count), and per-exit facts
(ticks only on a normal exit; the failsafe / limit suffixes with the
stop flag set; the limit window `N ≤ count < N + clicksPerTick`). -/
theorem inner_spec (cfg : ClickConfig) (env : Env) (interval : ℚ) :
    ∀ (fuel : Nat) (now : ℚ) (st : St) (evs : List Event) (st2 : St) (ex : InnerExit),
      innerLoop cfg env interval fuel now st = (evs, st2, ex) →
      (0 < cfg.max_clicks → st.count < cfg.max_clicks) →
      (st2.clicks ≤ st.clicks + fuel) ∧
      (∃ d, tickValues evs = List.range' (st.count + clicksPerTick cfg) d (clicksPerTick cfg) ∧
        st2.count = st.count + clicksPerTick cfg * d) ∧
      (ex = InnerExit.cond →
        (∀ e ∈ evs, ∃ n, e = Event.tick n) ∧ st2.intStop = st.intStop ∧
        (0 < cfg.max_clicks → st2.count < cfg.max_clicks)) ∧
      (∀ m, ex = InnerExit.exc m →
        (∀ e ∈ evs, ∃ n, e = Event.tick n) ∧ st2.intStop = st.intStop ∧
        (0 < cfg.max_clicks → st2.count < cfg.max_clicks)) ∧
      (ex = InnerExit.failsafe →
        (∃ pre, evs = pre ++ [Event.status failsafeMsg] ∧ ∀ e ∈ pre, ∃ n, e = Event.tick n) ∧
        st2.intStop = true ∧ (0 < cfg.max_clicks → st2.count < cfg.max_clicks)) ∧
      (ex = InnerExit.limit →
        (∃ pre, evs = pre ++ [Event.tick st2.count, Event.status limitMsg] ∧
          ∀ e ∈ pre, ∃ n, e = Event.tick n) ∧
        st2.intStop = true ∧ 0 < cfg.max_clicks ∧ cfg.max_clicks ≤ st2.count ∧
        st2.count < cfg.max_clicks + clicksPerTick cfg) := by
  intro fuel
  induction fuel with
  | zero =>
    intro now st evs st2 ex heq hInv
    simp only [innerLoop, Prod.mk.injEq] at heq
    obtain ⟨rfl, rfl, rfl⟩ := heq
    refine ⟨by omega, ⟨0, by simp⟩, ?_, ?_, ?_, ?_⟩
    · intro _; exact ⟨by simp, rfl, hInv⟩
    · intro m hm; simp at hm
    · intro hm; simp at hm
    · intro hm; simp at hm
  | succ fuel ih =>
    intro now st evs st2 ex heq hInv
    simp only [innerLoop] at heq
    by_cases h1 : now < st.next_t
    · rw [if_pos h1] at heq
      simp only [Prod.mk.injEq] at heq
      obtain ⟨rfl, rfl, rfl⟩ := heq
      refine ⟨by omega, ⟨0, by simp⟩, ?_, ?_, ?_, ?_⟩
      · intro _; exact ⟨by simp, rfl, hInv⟩
      · intro m hm; simp at hm
      · intro hm; simp at hm
      · intro hm; simp at hm
    · rw [if_neg h1] at heq
      by_cases h2 : stopIsSet env st = true
      · rw [if_pos h2] at heq
        simp only [Prod.mk.injEq] at heq
        obtain ⟨rfl, rfl, rfl⟩ := heq
        refine ⟨by simp, ⟨0, by simp⟩, ?_, ?_, ?_, ?_⟩
        · intro _; exact ⟨by simp, by simp, by simpa using hInv⟩
        · intro m hm; simp at hm
        · intro hm; simp at hm
        · intro hm; simp at hm
      · rw [if_neg h2] at heq
        cases ho : env.outcome (incPolls st).clicks with
        | err m =>
          simp only [ho, Prod.mk.injEq] at heq
          obtain ⟨rfl, rfl, rfl⟩ := heq
          refine ⟨by simp, ⟨0, by simp⟩, ?_, ?_, ?_, ?_⟩
          · intro hm; simp at hm
          · intro m' hm
            exact ⟨by simp, by simp, by simpa using hInv⟩
          · intro hm; simp at hm
          · intro hm; simp at hm
        | failsafe =>
          simp only [ho, Prod.mk.injEq] at heq
          obtain ⟨rfl, rfl, rfl⟩ := heq
          refine ⟨by simp, ⟨0, by simp⟩, ?_, ?_, ?_, ?_⟩
          · intro hm; simp at hm
          · intro m hm; simp at hm
          · intro _
            exact ⟨⟨[], by simp⟩, by simp, by simpa using hInv⟩
          · intro hm; simp at hm
        | ok =>
          by_cases h3 : 0 < cfg.max_clicks ∧
              cfg.max_clicks ≤ (addCount (clicksPerTick cfg) (incClicks (incPolls st))).count
          · simp only [ho, if_pos h3, Prod.mk.injEq] at heq
            obtain ⟨rfl, rfl, rfl⟩ := heq
            simp only [addCount_count, incClicks_count, incPolls_count] at h3
            refine ⟨by simp, ⟨1, by simp⟩, ?_, ?_, ?_, ?_⟩
            · intro hm; simp at hm
            · intro m hm; simp at hm
            · intro hm; simp at hm
            · intro _
              refine ⟨⟨[], by simp, by simp⟩, by simp, h3.1, by simpa using h3.2, ?_⟩
              have := hInv h3.1
              simp only [setStop_count, addCount_count, incClicks_count, incPolls_count]
              omega
          · simp only [ho, if_neg h3, Prod.mk.injEq] at heq
            rcases hr : innerLoop cfg env interval fuel
                (env.clock (addNext interval
                  (addCount (clicksPerTick cfg) (incClicks (incPolls st)))).clocks)
                (incClocks (addNext interval
                  (addCount (clicksPerTick cfg) (incClicks (incPolls st)))))
              with ⟨revs, rst, rex⟩
            rw [hr] at heq
            simp only [Prod.mk.injEq] at heq
            obtain ⟨rfl, rfl, rfl⟩ := heq
            have hInv5 : 0 < cfg.max_clicks →
                (incClocks (addNext interval
                  (addCount (clicksPerTick cfg) (incClicks (incPolls st))))).count <
                  cfg.max_clicks := by
              intro hN
              simp only [incClocks_count, addNext_count, addCount_count, incClicks_count,
                incPolls_count]
              rcases Nat.lt_or_ge (st.count + clicksPerTick cfg) cfg.max_clicks with h | h
              · exact h
              · exact absurd ⟨hN, by simpa using h⟩ h3
            obtain ⟨hA, ⟨d', htv, hcnt⟩, hC, hD, hE, hF⟩ := ih _ _ revs rst rex hr hInv5
            simp only [incClocks_count, addNext_count, addCount_count, incClicks_count,
              incPolls_count, incClocks_clicks, addNext_clicks, addCount_clicks,
              incClicks_clicks, incPolls_clicks, incClocks_intStop, addNext_intStop,
              addCount_intStop, incClicks_intStop, incPolls_intStop] at hA htv hcnt hC hD hE hF
            refine ⟨by omega, ?_, ?_, ?_, ?_, ?_⟩
            · refine ⟨d' + 1, ?_, ?_⟩
              · simp only [tickValues_cons_tick, addCount_count, incClicks_count, incPolls_count]
                rw [List.range'_succ, htv]
              · simp only [hcnt, Nat.mul_succ]
                omega
            · intro hex
              obtain ⟨hticks, hstop, hbound⟩ := hC hex
              refine ⟨?_, by simpa using hstop, hbound⟩
              intro e he
              rcases List.mem_cons.mp he with rfl | he'
              · exact ⟨_, rfl⟩
              · exact hticks e he'
            · intro m hex
              obtain ⟨hticks, hstop, hbound⟩ := hD m hex
              refine ⟨?_, by simpa using hstop, hbound⟩
              intro e he
              rcases List.mem_cons.mp he with rfl | he'
              · exact ⟨_, rfl⟩
              · exact hticks e he'
            · intro hex
              obtain ⟨⟨pre, hpre, hticks⟩, hstop, hbound⟩ := hE hex
              refine ⟨⟨Event.tick ((addCount (clicksPerTick cfg)
                (incClicks (incPolls st))).count) :: pre, by simp [hpre], ?_⟩, hstop, hbound⟩
              intro e he
              rcases List.mem_cons.mp he with rfl | he'
              · exact ⟨_, rfl⟩
              · exact hticks e he'
            · intro hex
              obtain ⟨⟨pre, hpre, hticks⟩, hstop, hN, hge, hlt⟩ := hF hex
              refine ⟨⟨Event.tick ((addCount (clicksPerTick cfg)
                (incClicks (incPolls st))).count) :: pre, by simp [hpre], ?_⟩,
                hstop, hN, hge, hlt⟩
              intro e he
              rcases List.mem_cons.mp he with rfl | he'
              · exact ⟨_, rfl⟩
              · exact hticks e he'

/-- Once the stop flag is set internally, the outer loop exits at its next
poll without emitting anything or touching the counter. -/
lemma outer_stopped (cfg : ClickConfig) (env : Env) (interval : ℚ) :
    ∀ (fuel : Nat) (st : St), st.intStop = true →
      ∃ st2 ex, outerLoop cfg env interval fuel st = ([], st2, ex) ∧
        st2.count = st.count ∧ st2.intStop = true ∧
        (fuel = 0 → ex = OuterExit.fuelOut) ∧ (fuel ≠ 0 → ex = OuterExit.stopFlag) := by
  intro fuel st h
  cases fuel with
  | zero =>
    exact ⟨st, OuterExit.fuelOut, by simp [outerLoop], rfl, h, fun _ => rfl, by simp⟩
  | succ fuel =>
    have hs : stopIsSet env st = true := by simp [stopIsSet, h]
    refine ⟨incPolls st, OuterExit.stopFlag, ?_, by simp, by simp [h], by simp, fun _ => rfl⟩
    simp [outerLoop, hs]

/-- Characterization of the outer scheduler loop: every emitted event is a
tick or one of the two break statuses; the tick stream is the run of
consecutive multiples of `clicksPerTick` continuing from the entry count;
and when a limit / failsafe status was emitted and fuel did not run out,
it is the last event, the stop flag is set, the loop exited through its
poll, and (for the limit) the final count lies in
`[max_clicks, max_clicks + clicksPerTick)`. -/
theorem outer_spec (cfg : ClickConfig) (env : Env) (interval : ℚ) :
    ∀ (fuel : Nat) (st : St) (evs : List Event) (st2 : St) (ex : OuterExit),
      outerLoop cfg env interval fuel st = (evs, st2, ex) →
      (0 < cfg.max_clicks → st.count < cfg.max_clicks) →
      (∀ e ∈ evs, (∃ n, e = Event.tick n) ∨ e = Event.status limitMsg ∨
        e = Event.status failsafeMsg) ∧
      (∃ d, tickValues evs = List.range' (st.count + clicksPerTick cfg) d (clicksPerTick cfg) ∧
        st2.count = st.count + clicksPerTick cfg * d) ∧
      (Event.status limitMsg ∈ evs → ex ≠ OuterExit.fuelOut →
        ex = OuterExit.stopFlag ∧ st2.intStop = true ∧ 0 < cfg.max_clicks ∧
        cfg.max_clicks ≤ st2.count ∧ st2.count < cfg.max_clicks + clicksPerTick cfg ∧
        ∃ pre, evs = pre ++ [Event.tick st2.count, Event.status limitMsg]) ∧
      (Event.status failsafeMsg ∈ evs → ex ≠ OuterExit.fuelOut →
        ex = OuterExit.stopFlag ∧ st2.intStop = true ∧
        ∃ pre, evs = pre ++ [Event.status failsafeMsg]) := by
  intro fuel
  induction fuel with
  | zero =>
    intro st evs st2 ex heq hInv
    simp only [outerLoop, Prod.mk.injEq] at heq
    obtain ⟨rfl, rfl, rfl⟩ := heq
    refine ⟨by simp, ⟨0, by simp⟩, ?_, ?_⟩
    · intro _ hne; exact absurd rfl hne
    · intro _ hne; exact absurd rfl hne
  | succ fuel ih =>
    intro st evs st2 ex heq hInv
    simp only [outerLoop] at heq
    by_cases h2 : stopIsSet env st = true
    · rw [if_pos h2] at heq
      simp only [Prod.mk.injEq] at heq
      obtain ⟨rfl, rfl, rfl⟩ := heq
      refine ⟨by simp, ⟨0, by simp⟩, ?_, ?_⟩
      · intro hm; simp at hm
      · intro hm; simp at hm
    · rw [if_neg h2] at heq
      by_cases h4 : (incClocks (incPolls st)).next_t ≤ env.clock (incPolls st).clocks
      · rw [if_pos h4] at heq
        rcases hr : innerLoop cfg env interval maxCatchup
            (env.clock (incPolls st).clocks) (incClocks (incPolls st))
          with ⟨ievs, stA, iex⟩
        have hInvB : 0 < cfg.max_clicks → (incClocks (incPolls st)).count < cfg.max_clicks := by
          simpa using hInv
        obtain ⟨hA, ⟨di, hitv, hicnt⟩, hC, hD, hE, hF⟩ :=
          inner_spec cfg env interval maxCatchup _ _ ievs stA iex hr hInvB
        simp only [incClocks_count, incPolls_count] at hitv hicnt hC hD hE hF
        cases iex with
        | exc m =>
          rw [hr] at heq
          simp only [Prod.mk.injEq] at heq
          obtain ⟨rfl, rfl, rfl⟩ := heq
          obtain ⟨hticks, hstop, hbound⟩ := hD m rfl
          refine ⟨?_, ⟨di, hitv, hicnt⟩, ?_, ?_⟩
          · intro e he; exact Or.inl (hticks e he)
          · intro hm _
            obtain ⟨n, hn⟩ := hticks _ hm
            simp at hn
          · intro hm _
            obtain ⟨n, hn⟩ := hticks _ hm
            simp at hn
        | cond =>
          rw [hr] at heq
          simp only [] at heq
          rcases hro : outerLoop cfg env interval fuel stA with ⟨oevs, ost, oex⟩
          rw [hro] at heq
          simp only [Prod.mk.injEq] at heq
          obtain ⟨rfl, rfl, rfl⟩ := heq
          obtain ⟨hticks, hstopEq, hbound⟩ := hC rfl
          obtain ⟨hM, ⟨do_, hotv, hocnt⟩, hL, hFS⟩ := ih stA oevs ost oex hro hbound
          refine ⟨?_, ?_, ?_, ?_⟩
          · intro e he
            rcases List.mem_append.mp he with he' | he'
            · exact Or.inl (hticks e he')
            · exact hM e he'
          · refine ⟨di + do_, ?_, ?_⟩
            · rw [tickValues_append, hitv, hotv]
              have hs : stA.count + clicksPerTick cfg =
                  (st.count + clicksPerTick cfg) + clicksPerTick cfg * di := by omega
              rw [hs, List.range'_append, Nat.add_comm do_ di]
            · rw [hocnt, hicnt, Nat.mul_add]
              omega
          · intro hm hne
            rcases List.mem_append.mp hm with hm' | hm'
            · obtain ⟨n, hn⟩ := hticks _ hm'
              simp at hn
            · obtain ⟨hex, hstp, hN, hge, hlt, pre, hpre⟩ := hL hm' hne
              exact ⟨hex, hstp, hN, hge, hlt, ievs ++ pre, by rw [hpre, List.append_assoc]⟩
          · intro hm hne
            rcases List.mem_append.mp hm with hm' | hm'
            · obtain ⟨n, hn⟩ := hticks _ hm'
              simp at hn
            · obtain ⟨hex, hstp, pre, hpre⟩ := hFS hm' hne
              exact ⟨hex, hstp, ievs ++ pre, by rw [hpre, List.append_assoc]⟩
        | limit =>
          rw [hr] at heq
          simp only [] at heq
          obtain ⟨⟨pre, hpre, hticks⟩, hstop, hN, hge, hlt⟩ := hF rfl
          obtain ⟨ost, oex, hro, hcnt', hstop', hz, hnz⟩ :=
            outer_stopped cfg env interval fuel stA hstop
          rw [hro] at heq
          simp only [List.append_nil, Prod.mk.injEq] at heq
          obtain ⟨rfl, rfl, rfl⟩ := heq
          refine ⟨?_, ⟨di, hitv, by omega⟩, ?_, ?_⟩
          · intro e he
            rw [hpre] at he
            rcases List.mem_append.mp he with he' | he'
            · exact Or.inl (hticks e he')
            · rcases List.mem_cons.mp he' with rfl | he''
              · exact Or.inl ⟨_, rfl⟩
              · rcases List.mem_cons.mp he'' with rfl | he'''
                · exact Or.inr (Or.inl rfl)
                · simp at he'''
          · intro _ hne
            have hfz : fuel ≠ 0 := by
              intro h0
              exact hne (hz h0)
            refine ⟨hnz hfz, hstop', hN, by omega, by omega, pre, ?_⟩
            rw [hpre]
            have : ost.count = stA.count := hcnt'
            rw [this]
          · intro hm _
            rw [hpre] at hm
            rcases List.mem_append.mp hm with hm' | hm'
            · obtain ⟨n, hn⟩ := hticks _ hm'
              simp at hn
            · rcases List.mem_cons.mp hm' with hcontra | hm''
              · simp at hcontra
              · rcases List.mem_cons.mp hm'' with hcontra | hm'''
                · have : failsafeMsg = limitMsg := by
                    injection hcontra
                  exact absurd this failsafeMsg_ne_limitMsg
                · simp at hm'''
        | failsafe =>
          rw [hr] at heq
          simp only [] at heq
          obtain ⟨⟨pre, hpre, hticks⟩, hstop, hbound⟩ := hE rfl
          obtain ⟨ost, oex, hro, hcnt', hstop', hz, hnz⟩ :=
            outer_stopped cfg env interval fuel stA hstop
          rw [hro] at heq
          simp only [List.append_nil, Prod.mk.injEq] at heq
          obtain ⟨rfl, rfl, rfl⟩ := heq
          refine ⟨?_, ⟨di, hitv, by omega⟩, ?_, ?_⟩
          · intro e he
            rw [hpre] at he
            rcases List.mem_append.mp he with he' | he'
            · exact Or.inl (hticks e he')
            · rcases List.mem_cons.mp he' with rfl | he''
              · exact Or.inr (Or.inr rfl)
              · simp at he''
          · intro hm _
            rw [hpre] at hm
            rcases List.mem_append.mp hm with hm' | hm'
            · obtain ⟨n, hn⟩ := hticks _ hm'
              simp at hn
            · rcases List.mem_cons.mp hm' with hcontra | hm''
              · have : limitMsg = failsafeMsg := by
                  injection hcontra
                exact absurd this.symm failsafeMsg_ne_limitMsg
              · simp at hm''
          · intro _ hne
            have hfz : fuel ≠ 0 := by
              intro h0
              exact hne (hz h0)
            exact ⟨hnz hfz, hstop', pre, hpre⟩
      · rw [if_neg h4] at heq
        obtain ⟨hM, ⟨d, hotv, hocnt⟩, hL, hFS⟩ :=
          ih _ evs st2 ex heq (by simpa using hInv)
        simp only [incClocks_count, incPolls_count] at hotv hocnt
        exact ⟨hM, ⟨d, hotv, hocnt⟩, hL, hFS⟩

/-- Countdown events are countdown statuses or the early `stopped`;
the countdown touches no other worker state than the poll counter. -/
lemma countdown_events (env : Env) :
    ∀ (t : Nat) (st : St) (evs : List Event) (st2 : St) (b : Bool),
      countdown env t st = (evs, st2, b) →
      (∀ e ∈ evs, (∃ u, e = Event.status (startingMsg u)) ∨ e = Event.stopped) ∧
      st2.count = st.count ∧ st2.intStop = st.intStop ∧ st2.clicks = st.clicks ∧
      st2.clocks = st.clocks ∧ st2.next_t = st.next_t := by
  intro t
  induction t with
  | zero =>
    intro st evs st2 b heq
    simp only [countdown, Prod.mk.injEq] at heq
    obtain ⟨rfl, rfl, rfl⟩ := heq
    exact ⟨by simp, rfl, rfl, rfl, rfl, rfl⟩
  | succ t ih =>
    intro st evs st2 b heq
    simp only [countdown] at heq
    by_cases h : stopIsSet env st = true
    · rw [if_pos h] at heq
      simp only [Prod.mk.injEq] at heq
      obtain ⟨rfl, rfl, rfl⟩ := heq
      refine ⟨?_, by simp, by simp, by simp, by simp, by simp⟩
      intro e he
      rcases List.mem_cons.mp he with rfl | he'
      · exact Or.inr rfl
      · simp at he'
    · rw [if_neg h] at heq
      rcases hr : countdown env t (incPolls st) with ⟨revs, rst, rb⟩
      rw [hr] at heq
      simp only [Prod.mk.injEq] at heq
      obtain ⟨rfl, rfl, rfl⟩ := heq
      obtain ⟨hmem, h1, h2, h3, h4, h5⟩ := ih (incPolls st) revs rst rb hr
      refine ⟨?_, by simpa using h1, by simpa using h2, by simpa using h3,
        by simpa using h4, by simpa using h5⟩
      intro e he
      rcases List.mem_cons.mp he with rfl | he'
      · exact Or.inl ⟨t + 1, rfl⟩
      · exact hmem e he'

lemma map_starting_succ (t m : Nat) :
    (List.range (m + 1)).map (fun i => Event.status (startingMsg (t + 1 - i))) =
      Event.status (startingMsg (t + 1)) ::
        (List.range m).map (fun i => Event.status (startingMsg (t - i))) := by
  rw [List.range_succ_eq_map, List.map_cons, List.map_map]
  simp [Function.comp, Nat.succ_sub_succ]

/-- With no stop request, the countdown emits exactly one status per
remaining second, counting down from `t` to 1. -/
lemma countdown_nostop (env : Env) (hext : env.extStopAt = none) :
    ∀ (t : Nat) (st : St), st.intStop = false →
      ∃ st2, countdown env t st =
        ((List.range t).map (fun i => Event.status (startingMsg (t - i))), st2, false) := by
  intro t
  induction t with
  | zero => intro st h; exact ⟨st, by simp [countdown]⟩
  | succ t ih =>
    intro st h
    have hs : stopIsSet env st = false := by simp [stopIsSet, h, hext]
    obtain ⟨st2, hr⟩ := ih (incPolls st) (by simp [h])
    refine ⟨st2, ?_⟩
    simp only [countdown]
    rw [if_neg (by simp [hs]), hr, map_starting_succ]

/-- With an external stop arriving before the `k`-th poll (`k` less than
the remaining seconds), the countdown emits the first `k` statuses, then
the early `stopped`, and reports early exit. -/
lemma countdown_stop (env : Env) (k : Nat) (hext : env.extStopAt = some k) :
    ∀ (t : Nat) (st : St), st.intStop = false → st.polls ≤ k → k < st.polls + t →
      ∃ st2, countdown env t st =
        ((List.range (k - st.polls)).map (fun i => Event.status (startingMsg (t - i)))
          ++ [Event.stopped], st2, true) := by
  intro t
  induction t with
  | zero =>
    intro st h hle hlt
    omega
  | succ t ih =>
    intro st h hle hlt
    by_cases hk : k ≤ st.polls
    · have hs : stopIsSet env st = true := by
        simp [stopIsSet, hext, hk]
      refine ⟨incPolls st, ?_⟩
      simp only [countdown]
      rw [if_pos hs]
      have hzero : k - st.polls = 0 := by omega
      rw [hzero]
      simp
    · push_neg at hk
      have hs : stopIsSet env st = false := by
        simp only [stopIsSet, h, hext, Bool.false_or]
        simp only [decide_eq_false_iff_not]
        omega
      obtain ⟨st2, hr⟩ := ih (incPolls st) (by simp [h]) (by simp [Nat.succ_le_of_lt hk])
        (by simp only [incPolls_polls]; omega)
      refine ⟨st2, ?_⟩
      simp only [countdown]
      rw [if_neg (by simp [hs]), hr]
      have hshift : k - st.polls = (k - (incPolls st).polls) + 1 := by
        simp only [incPolls_polls]
        omega
      rw [hshift, map_starting_succ]
      simp

/-- Every completed `runWorker` is either the countdown-early-exit branch
(whose `return` is followed by the `finally` emission) or the main branch,
ending through the stop flag or through an exception. -/
lemma runWorker_cases (cfg : ClickConfig) (env : Env) (fuel : Nat)
    (evs : List Event) (st : St)
    (h : runWorker cfg env fuel = some (evs, st)) :
    (∃ cevs c2, countdown env cfg.start_delay_sec initSt = (cevs, c2, true) ∧
      evs = cevs ++ [Event.stopped] ∧ st = c2) ∨
    (∃ cevs c2 oevs ex,
      countdown env cfg.start_delay_sec initSt = (cevs, c2, false) ∧
      outerLoop cfg env (ratMax (1/1000 : ℚ) cfg.interval_sec) fuel
        (setNext (env.clock c2.clocks) (incClocks c2)) = (oevs, st, ex) ∧
      ((ex = OuterExit.stopFlag ∧
        evs = cevs ++ [Event.status runningMsg, Event.started] ++ oevs ++ [Event.stopped]) ∨
       (∃ m, ex = OuterExit.exc m ∧
        evs = cevs ++ [Event.status runningMsg, Event.started] ++ oevs
          ++ [Event.error m, Event.stopped]))) := by
  rcases hc : countdown env cfg.start_delay_sec initSt with ⟨cevs, c2, b⟩
  simp only [runWorker] at h
  rw [hc] at h
  simp only [] at h
  cases b with
  | true =>
    rw [if_pos rfl] at h
    simp only [Option.some.injEq, Prod.mk.injEq] at h
    obtain ⟨rfl, rfl⟩ := h
    exact Or.inl ⟨cevs, c2, rfl, rfl, rfl⟩
  | false =>
    rw [if_neg (by simp)] at h
    rcases ho : outerLoop cfg env (ratMax (1/1000 : ℚ) cfg.interval_sec) fuel
        (setNext (env.clock c2.clocks) (incClocks c2)) with ⟨oevs, o2, ex⟩
    rw [ho] at h
    cases ex with
    | fuelOut => simp at h
    | stopFlag =>
      simp only [Option.some.injEq, Prod.mk.injEq] at h
      obtain ⟨rfl, rfl⟩ := h
      exact Or.inr ⟨cevs, c2, oevs, OuterExit.stopFlag, rfl, ho, Or.inl ⟨rfl, by simp⟩⟩
    | exc m =>
      simp only [Option.some.injEq, Prod.mk.injEq] at h
      obtain ⟨rfl, rfl⟩ := h
      exact Or.inr ⟨cevs, c2, oevs, OuterExit.exc m, rfl, ho,
        Or.inr ⟨m, rfl, by simp⟩⟩

/-- Neither break status can appear among the countdown's events. -/
lemma status_notin_countdown (env : Env) (t : Nat) (st : St) (evs : List Event)
    (st2 : St) (b : Bool) (hc : countdown env t st = (evs, st2, b)) (msg : String)
    (hne : ∀ u, startingMsg u ≠ msg) : Event.status msg ∉ evs := by
  intro hmem
  obtain ⟨hmemb, -⟩ := countdown_events env t st evs st2 b hc
  rcases hmemb _ hmem with ⟨u, hu⟩ | hstop
  · injection hu with hu2
    exact hne u hu2.symm
  · simp at hstop

lemma countErrors_append (l1 l2 : List Event) :
    countErrors (l1 ++ l2) = countErrors l1 + countErrors l2 :=
  List.countP_append _ _ _

lemma countErrors_eq_zero (l : List Event) (h : ∀ m, Event.error m ∉ l) :
    countErrors l = 0 := by
  rw [countErrors, List.countP_eq_zero]
  intro a ha
  cases a with
  | error s => exact absurd ha (h s)
  | started => simp
  | stopped => simp
  | tick n => simp
  | status s => simp

/-- `error` events never come from the countdown or the scheduler loop
itself; only the worker boundary (`except Exception`) emits them. -/
lemma error_notin_countdown (env : Env) (t : Nat) (st : St) (evs : List Event)
    (st2 : St) (b : Bool) (hc : countdown env t st = (evs, st2, b)) (m : String) :
    Event.error m ∉ evs := by
  intro hmem
  obtain ⟨hmemb, -⟩ := countdown_events env t st evs st2 b hc
  rcases hmemb _ hmem with ⟨u, hu⟩ | hstop
  · simp at hu
  · simp at hstop

/-- The countdown emits no tick events. -/
lemma tickValues_countdown (env : Env) (t : Nat) (st : St) (cevs : List Event)
    (c2 : St) (b : Bool) (hc : countdown env t st = (cevs, c2, b)) :
    tickValues cevs = [] := by
  obtain ⟨hmemb, -⟩ := countdown_events env t st cevs c2 b hc
  rw [tickValues, List.filterMap_eq_nil_iff]
  intro a ha
  rcases hmemb a ha with ⟨u, rfl⟩ | rfl <;> rfl

/-- Locating a status event of the main branch inside the scheduler-loop
events, given it cannot be a countdown status, the running banner, or in
the tail. -/
lemma status_mem_oevs (cevs oevs tail : List Event) (msg : String)
    (hnc : Event.status msg ∉ cevs)
    (hnr : msg ≠ runningMsg)
    (hnt : Event.status msg ∉ tail)
    (hmem : Event.status msg ∈
      cevs ++ [Event.status runningMsg, Event.started] ++ oevs ++ tail) :
    Event.status msg ∈ oevs := by
  rcases List.mem_append.mp hmem with h | h
  · rcases List.mem_append.mp h with h | h
    · rcases List.mem_append.mp h with h | h
      · exact absurd h hnc
      · rcases List.mem_cons.mp h with h | h
        · injection h with h2
          exact absurd h2 hnr
        · rcases List.mem_cons.mp h with h | h
          · simp at h
          · simp at h
    · exact h
  · exact absurd h hnt

/-- C1: if a run's events contain the "Click limit reached" status, the
run ended through the click limit: the stop flag is set, the final count
is the first multiple of `clicksPerTick` that is `≥ max_clicks` (so it
lies in `[max_clicks, max_clicks + clicksPerTick - 1]`), and the run's
events end with the final tick carrying that count, the limit status, and
the terminal `stopped` — both loops having exited. -/
theorem click_limit_boundary (cfg : ClickConfig) (env : Env) (fuel : Nat)
    (evs : List Event) (st : St)
    (hrun : runWorker cfg env fuel = some (evs, st))
    (hlim : Event.status limitMsg ∈ evs) :
    st.intStop = true ∧ 0 < cfg.max_clicks ∧
    cfg.max_clicks ≤ st.count ∧ st.count < cfg.max_clicks + clicksPerTick cfg ∧
    st.count = clicksPerTick cfg *
      ((cfg.max_clicks + clicksPerTick cfg - 1) / clicksPerTick cfg) ∧
    ∃ pre, evs = pre ++ [Event.tick st.count, Event.status limitMsg, Event.stopped] := by
  rcases runWorker_cases cfg env fuel evs st hrun with
    ⟨cevs, c2, hc, rfl, rfl⟩ | ⟨cevs, c2, oevs, ex, hc, ho, hbr⟩
  · exfalso
    have hnc := status_notin_countdown env _ _ cevs st true hc limitMsg startingMsg_ne_limitMsg
    rcases List.mem_append.mp hlim with h | h
    · exact hnc h
    · simp at h
  · have hnc := status_notin_countdown env _ _ cevs c2 false hc limitMsg startingMsg_ne_limitMsg
    have hc20 : c2.count = 0 := by
      obtain ⟨-, h1, -⟩ := countdown_events env _ _ cevs c2 false hc
      simpa [initSt] using h1
    have hInv : 0 < cfg.max_clicks →
        (setNext (env.clock c2.clocks) (incClocks c2)).count < cfg.max_clicks := by
      intro hN
      simpa [hc20] using hN
    obtain ⟨hM, ⟨d, hotv, hocnt⟩, hL, hFS⟩ :=
      outer_spec cfg env _ fuel _ oevs st ex ho hInv
    simp only [setNext_count, incClocks_count, hc20, Nat.zero_add] at hotv hocnt
    rcases hbr with ⟨rfl, rfl⟩ | ⟨m, rfl, rfl⟩
    · have hmo : Event.status limitMsg ∈ oevs :=
        status_mem_oevs cevs oevs [Event.stopped] limitMsg hnc
          runningMsg_ne_limitMsg.symm (by simp) hlim
      obtain ⟨-, hstop, hN, hge, hlt, preo, hpreo⟩ := hL hmo (by simp)
      refine ⟨hstop, hN, hge, hlt, ?_, ?_⟩
      · have hcd : st.count = clicksPerTick cfg * d := hocnt
        cases hdb : cfg.double_click with
        | false =>
          have hcc : clicksPerTick cfg = 1 := by simp [clicksPerTick, hdb]
          rw [hcc] at hcd hlt ⊢
          omega
        | true =>
          have hcc : clicksPerTick cfg = 2 := by simp [clicksPerTick, hdb]
          rw [hcc] at hcd hlt ⊢
          omega
      · refine ⟨cevs ++ [Event.status runningMsg, Event.started] ++ preo, ?_⟩
        rw [hpreo]
        simp [List.append_assoc]
    · have hmo : Event.status limitMsg ∈ oevs :=
        status_mem_oevs cevs oevs [Event.error m, Event.stopped] limitMsg hnc
          runningMsg_ne_limitMsg.symm (by simp) hlim
      obtain ⟨hcontra, -⟩ := hL hmo (by simp)
      simp at hcontra

lemma error_notin_oevs (oevs : List Event)
    (hM : ∀ e ∈ oevs, (∃ n, e = Event.tick n) ∨ e = Event.status limitMsg ∨
      e = Event.status failsafeMsg) (m : String) : Event.error m ∉ oevs := by
  intro hm
  rcases hM _ hm with ⟨n, hn⟩ | hn | hn <;> simp at hn

/-- C4: if a run's events contain the failsafe status, the failsafe
attempt contributed no click and no tick (the final count is exactly
`clicksPerTick` per tick event emitted), the stop flag was set, no error
event was emitted, and the run ends with the failsafe status followed
immediately by the terminal `stopped` — both loops having exited. -/
theorem failsafe_behavior (cfg : ClickConfig) (env : Env) (fuel : Nat)
    (evs : List Event) (st : St)
    (hrun : runWorker cfg env fuel = some (evs, st))
    (hfs : Event.status failsafeMsg ∈ evs) :
    st.intStop = true ∧
    (∀ m, Event.error m ∉ evs) ∧
    st.count = clicksPerTick cfg * (tickValues evs).length ∧
    ∃ pre, evs = pre ++ [Event.status failsafeMsg, Event.stopped] := by
  rcases runWorker_cases cfg env fuel evs st hrun with
    ⟨cevs, c2, hc, rfl, rfl⟩ | ⟨cevs, c2, oevs, ex, hc, ho, hbr⟩
  · exfalso
    have hnc := status_notin_countdown env _ _ cevs st true hc failsafeMsg
      startingMsg_ne_failsafeMsg
    rcases List.mem_append.mp hfs with h | h
    · exact hnc h
    · simp at h
  · have hnc := status_notin_countdown env _ _ cevs c2 false hc failsafeMsg
      startingMsg_ne_failsafeMsg
    have hc20 : c2.count = 0 := by
      obtain ⟨-, h1, -⟩ := countdown_events env _ _ cevs c2 false hc
      simpa [initSt] using h1
    have hInv : 0 < cfg.max_clicks →
        (setNext (env.clock c2.clocks) (incClocks c2)).count < cfg.max_clicks := by
      intro hN
      simpa [hc20] using hN
    obtain ⟨hM, ⟨d, hotv, hocnt⟩, hL, hFS⟩ :=
      outer_spec cfg env _ fuel _ oevs st ex ho hInv
    simp only [setNext_count, incClocks_count, hc20, Nat.zero_add] at hotv hocnt
    have htc : tickValues cevs = [] := tickValues_countdown env _ _ cevs c2 false hc
    rcases hbr with ⟨rfl, rfl⟩ | ⟨m, rfl, rfl⟩
    · have hmo : Event.status failsafeMsg ∈ oevs :=
        status_mem_oevs cevs oevs [Event.stopped] failsafeMsg hnc
          runningMsg_ne_failsafeMsg.symm (by simp) hfs
      obtain ⟨-, hstop, preo, hpreo⟩ := hFS hmo (by simp)
      refine ⟨hstop, ?_, ?_, ?_⟩
      · intro m hm
        rcases List.mem_append.mp hm with h | h
        · rcases List.mem_append.mp h with h | h
          · rcases List.mem_append.mp h with h | h
            · exact error_notin_countdown env _ _ cevs c2 false hc m h
            · simp at h
          · exact error_notin_oevs oevs hM m h
        · simp at h
      · have htv : tickValues (cevs ++ [Event.status runningMsg, Event.started]
            ++ oevs ++ [Event.stopped]) = tickValues oevs := by
          simp [tickValues_append, htc]
        rw [htv, hotv, List.length_range']
        exact hocnt
      · refine ⟨cevs ++ [Event.status runningMsg, Event.started] ++ preo, ?_⟩
        rw [hpreo]
        simp [List.append_assoc]
    · have hmo : Event.status failsafeMsg ∈ oevs :=
        status_mem_oevs cevs oevs [Event.error m, Event.stopped] failsafeMsg hnc
          runningMsg_ne_failsafeMsg.symm (by simp) hfs
      obtain ⟨hcontra, -⟩ := hFS hmo (by simp)
      simp at hcontra

/-- C5: any exception other than the failsafe is caught at the worker
boundary: an `error` event in a run's stream is unique, carries the
exception's message, and is followed immediately (and only) by the
terminal `stopped` — the run ends as a stop, not a crash. -/
theorem error_boundary (cfg : ClickConfig) (env : Env) (fuel : Nat)
    (evs : List Event) (st : St) (m : String)
    (hrun : runWorker cfg env fuel = some (evs, st))
    (hme : Event.error m ∈ evs) :
    countErrors evs = 1 ∧
    ∃ pre, evs = pre ++ [Event.error m, Event.stopped] ∧ ∀ m2, Event.error m2 ∉ pre := by
  rcases runWorker_cases cfg env fuel evs st hrun with
    ⟨cevs, c2, hc, rfl, rfl⟩ | ⟨cevs, c2, oevs, ex, hc, ho, hbr⟩
  · exfalso
    rcases List.mem_append.mp hme with h | h
    · exact error_notin_countdown env _ _ cevs st true hc m h
    · simp at h
  · have hc20 : c2.count = 0 := by
      obtain ⟨-, h1, -⟩ := countdown_events env _ _ cevs c2 false hc
      simpa [initSt] using h1
    have hInv : 0 < cfg.max_clicks →
        (setNext (env.clock c2.clocks) (incClocks c2)).count < cfg.max_clicks := by
      intro hN
      simpa [hc20] using hN
    obtain ⟨hM, -, -, -⟩ := outer_spec cfg env _ fuel _ oevs st ex ho hInv
    have hbase : ∀ m2, Event.error m2 ∉
        cevs ++ [Event.status runningMsg, Event.started] ++ oevs := by
      intro m2 hm2
      rcases List.mem_append.mp hm2 with h | h
      · rcases List.mem_append.mp h with h | h
        · exact error_notin_countdown env _ _ cevs c2 false hc m2 h
        · simp at h
      · exact error_notin_oevs oevs hM m2 h
    rcases hbr with ⟨rfl, rfl⟩ | ⟨m', rfl, rfl⟩
    · exfalso
      rcases List.mem_append.mp hme with h | h
      · exact hbase m h
      · simp at h
    · have hmm : m = m' := by
        rcases List.mem_append.mp hme with h | h
        · exact absurd h (hbase m)
        · rcases List.mem_cons.mp h with h | h
          · simpa using h
          · simp at h
      subst hmm
      refine ⟨?_, cevs ++ [Event.status runningMsg, Event.started] ++ oevs, rfl, hbase⟩
      rw [countErrors_append,
        countErrors_eq_zero (cevs ++ [Event.status runningMsg, Event.started] ++ oevs) hbase]
      simp [countErrors, List.countP_cons]

lemma chain_range' (c : Nat) : ∀ (n s : Nat),
    List.Chain' (fun a b => b = a + c) (List.range' s n c) := by
  intro n
  induction n with
  | zero => intro s; simp
  | succ n ih =>
    intro s
    rw [List.range'_succ]
    cases n with
    | zero => simp
    | succ m =>
      rw [List.range'_succ]
      exact List.Chain'.cons rfl (by rw [← List.range'_succ]; exact ih (s + c))

/-- C8: over any completed run, the tick stream is exactly the sequence
`clicksPerTick, 2·clicksPerTick, …`: it starts at `clicksPerTick`, each
tick exceeds its predecessor by exactly `clicksPerTick`, and the final
counter equals `clicksPerTick` times the number of ticks (so the last
tick event carries the final counter value and the count never
regresses). -/
theorem tick_stream_monotone (cfg : ClickConfig) (env : Env) (fuel : Nat)
    (evs : List Event) (st : St)
    (hrun : runWorker cfg env fuel = some (evs, st)) :
    ∃ d, tickValues evs = List.range' (clicksPerTick cfg) d (clicksPerTick cfg) ∧
      st.count = clicksPerTick cfg * d ∧
      List.Chain' (fun a b => b = a + clicksPerTick cfg) (tickValues evs) := by
  rcases runWorker_cases cfg env fuel evs st hrun with
    ⟨cevs, c2, hc, rfl, rfl⟩ | ⟨cevs, c2, oevs, ex, hc, ho, hbr⟩
  · have htc : tickValues cevs = [] := tickValues_countdown env _ _ cevs st true hc
    have hc20 : st.count = 0 := by
      obtain ⟨-, h1, -⟩ := countdown_events env _ _ cevs st true hc
      simpa [initSt] using h1
    refine ⟨0, ?_, by simpa using hc20, ?_⟩
    · simp [tickValues_append, htc]
    · simp [tickValues_append, htc]
  · have hc20 : c2.count = 0 := by
      obtain ⟨-, h1, -⟩ := countdown_events env _ _ cevs c2 false hc
      simpa [initSt] using h1
    have hInv : 0 < cfg.max_clicks →
        (setNext (env.clock c2.clocks) (incClocks c2)).count < cfg.max_clicks := by
      intro hN
      simpa [hc20] using hN
    obtain ⟨-, ⟨d, hotv, hocnt⟩, -, -⟩ :=
      outer_spec cfg env _ fuel _ oevs st ex ho hInv
    simp only [setNext_count, incClocks_count, hc20, Nat.zero_add] at hotv hocnt
    have htc : tickValues cevs = [] := tickValues_countdown env _ _ cevs c2 false hc
    have hkey : ∀ tail : List Event, tickValues tail = [] →
        tickValues (cevs ++ [Event.status runningMsg, Event.started] ++ oevs ++ tail) =
          tickValues oevs := by
      intro tail htail
      simp [tickValues_append, htc, htail]
    rcases hbr with ⟨rfl, rfl⟩ | ⟨m, rfl, rfl⟩
    · rw [hkey [Event.stopped] (by simp)]
      exact ⟨d, hotv, hocnt, by rw [hotv]; exact chain_range' _ d _⟩
    · rw [hkey [Event.error m, Event.stopped] (by simp)]
      exact ⟨d, hotv, hocnt, by rw [hotv]; exact chain_range' _ d _⟩

/-- Under an all-success environment with no stop request, no click limit,
and a backlog of at least `fuel` intervals, the catch-up loop consumes its
entire budget: one click attempt and one `next_tick += interval` advance
per iteration. -/
lemma inner_full_burn (cfg : ClickConfig) (env : Env) (interval : ℚ) (T : ℚ)
    (hok : ∀ i, env.outcome i = ClickRes.ok)
    (hclock : ∀ j, env.clock j = T)
    (hext : env.extStopAt = none)
    (hmax : cfg.max_clicks = 0)
    (hpos : 0 < interval) :
    ∀ (fuel : Nat) (st : St), st.intStop = false →
      st.next_t + fuel * interval ≤ T →
      ∃ evs st2, innerLoop cfg env interval fuel T st = (evs, st2, InnerExit.cond) ∧
        (tickValues evs).length = fuel ∧
        st2.clicks = st.clicks + fuel ∧
        st2.count = st.count + clicksPerTick cfg * fuel ∧
        st2.next_t = st.next_t + fuel * interval ∧
        st2.intStop = false := by
  intro fuel
  induction fuel with
  | zero =>
    intro st hstop hback
    exact ⟨[], st, by simp [innerLoop], by simp, by simp, by simp, by simp, hstop⟩
  | succ fuel ih =>
    intro st hstop hback
    have hle : st.next_t ≤ T := by
      have h0 : (0:ℚ) ≤ (fuel + 1 : Nat) * interval := by
        positivity
      push_cast at h0 hback ⊢
      linarith
    have hs : stopIsSet env st = false := by
      simp [stopIsSet, hstop, hext]
    obtain ⟨revs, rst, hr, hlen, hclk, hcnt, hnext, hstop2⟩ :=
      ih (incClocks (addNext interval
        (addCount (clicksPerTick cfg) (incClicks (incPolls st))))) (by simp [hstop]) (by
          simp only [incClocks_next_t, addNext_next_t, addCount_next_t, incClicks_next_t,
            incPolls_next_t]
          push_cast at hback ⊢
          linarith)
    refine ⟨Event.tick ((addCount (clicksPerTick cfg) (incClicks (incPolls st))).count) :: revs,
      rst, ?_, ?_, ?_, ?_, ?_, hstop2⟩
    · simp only [innerLoop]
      rw [if_neg (by simpa using hle), if_neg (by simp [hs]), hok]
      simp only []
      rw [if_neg (by simp [hmax]), hclock, hr]
    · simp [hlen]
    · simp only [incClocks_clicks, addNext_clicks, addCount_clicks, incClicks_clicks,
        incPolls_clicks] at hclk
      omega
    · simp only [incClocks_count, addNext_count, addCount_count, incClicks_count,
        incPolls_count] at hcnt
      rw [hcnt]
      simp [Nat.mul_succ]
      omega
    · simp only [incClocks_next_t, addNext_next_t, addCount_next_t, incClicks_next_t,
        incPolls_next_t] at hnext
      rw [hnext]
      push_cast
      ring

/-- C3: one outer pass's catch-up burst is bounded by
`maxCatchup = 20` click attempts for every environment, and under a
backlog of 1000 intervals the burst fires exactly 20 ticks, advances
`next_tick` by exactly one interval per iteration (20 in total), and
leaves `next_tick` behind the clock by the remaining backlog instead of
catching up fully. -/
theorem catchup_bound (cfg : ClickConfig) (env : Env) (interval : ℚ) (st : St) (T : ℚ)
    (hok : ∀ i, env.outcome i = ClickRes.ok)
    (hclock : ∀ j, env.clock j = T)
    (hext : env.extStopAt = none)
    (hstop : st.intStop = false)
    (hmax : cfg.max_clicks = 0)
    (hpos : 0 < interval)
    (hback : st.next_t + 1000 * interval ≤ T) :
    (∀ (envB : Env) (stB : St) (nowB : ℚ),
      (innerLoop cfg envB interval maxCatchup nowB stB).2.1.clicks ≤
        stB.clicks + maxCatchup) ∧
    ∃ evs st2, innerLoop cfg env interval maxCatchup T st = (evs, st2, InnerExit.cond) ∧
      (tickValues evs).length = maxCatchup ∧
      st2.clicks = st.clicks + maxCatchup ∧
      st2.count = st.count + clicksPerTick cfg * maxCatchup ∧
      st2.next_t = st.next_t + (maxCatchup : ℚ) * interval ∧
      T - st2.next_t = (T - st.next_t) - (maxCatchup : ℚ) * interval := by
  constructor
  · intro envB stB nowB
    rcases hr : innerLoop cfg envB interval maxCatchup nowB stB with ⟨ievs, stA, iex⟩
    have hInvB : 0 < cfg.max_clicks → stB.count < cfg.max_clicks := by
      intro h
      rw [hmax] at h
      exact absurd h (by omega)
    obtain ⟨hA, -⟩ := inner_spec cfg envB interval maxCatchup nowB stB ievs stA iex hr hInvB
    exact hA
  · have h20 : st.next_t + (maxCatchup : Nat) * interval ≤ T := by
      have hmono : ((maxCatchup : Nat) : ℚ) * interval ≤ 1000 * interval := by
        have : ((maxCatchup : Nat) : ℚ) ≤ 1000 := by norm_num [maxCatchup]
        exact mul_le_mul_of_nonneg_right this hpos.le
      linarith
    obtain ⟨evs, st2, hr, hlen, hclk, hcnt, hnext, -⟩ :=
      inner_full_burn cfg env interval T hok hclock hext hmax hpos maxCatchup st hstop h20
    refine ⟨evs, st2, hr, hlen, hclk, hcnt, hnext, ?_⟩
    rw [hnext]
    ring

lemma tickValues_map_status (f : Nat → String) (l : List Nat) :
    tickValues (l.map fun i => Event.status (f i)) = [] := by
  rw [tickValues, List.filterMap_map]
  exact List.filterMap_eq_nil_iff.mpr (fun a _ => rfl)

/-- C9: with a positive start delay, the countdown emits exactly one
"Starting in Ns..." status per remaining second (counting down), polling
the stop flag each second; a stop observed at the k-th poll ends the run
right there as a stopped run — zero clicks, no tick events, and no
`started` event.  (The run's event list is exactly the first k countdown
statuses followed by the early and the terminal `stopped`.) -/
theorem countdown_stop_run (cfg : ClickConfig) (env : Env) (fuel : Nat) (k : Nat)
    (hext : env.extStopAt = some k)
    (hk : k < cfg.start_delay_sec) :
    (∃ st, runWorker cfg env fuel =
        some ((List.range k).map
            (fun i => Event.status (startingMsg (cfg.start_delay_sec - i)))
          ++ [Event.stopped, Event.stopped], st) ∧ st.count = 0) ∧
    (∀ evs st, runWorker cfg env fuel = some (evs, st) →
      st.count = 0 ∧ Event.started ∉ evs ∧ tickValues evs = []) ∧
    (∀ env2 : Env, env2.extStopAt = none →
      ∃ c2, countdown env2 cfg.start_delay_sec initSt =
        ((List.range cfg.start_delay_sec).map
          (fun i => Event.status (startingMsg (cfg.start_delay_sec - i))), c2, false)) := by
  obtain ⟨c2, hcd⟩ := countdown_stop env k hext cfg.start_delay_sec initSt rfl
    (by simp [initSt]) (by simp only [initSt]; omega)
  rw [show k - initSt.polls = k from rfl] at hcd
  have hrw : runWorker cfg env fuel =
      some ((List.range k).map
          (fun i => Event.status (startingMsg (cfg.start_delay_sec - i)))
        ++ [Event.stopped, Event.stopped], c2) := by
    simp only [runWorker]
    rw [hcd]
    simp only []
    rw [if_pos trivial]
    simp [List.append_assoc]
  have hc20 : c2.count = 0 := by
    obtain ⟨-, h1, -⟩ := countdown_events env _ _ _ c2 true hcd
    simpa [initSt] using h1
  refine ⟨⟨c2, hrw, hc20⟩, ?_, ?_⟩
  · intro evs st h
    rw [hrw] at h
    simp only [Option.some.injEq, Prod.mk.injEq] at h
    obtain ⟨rfl, rfl⟩ := h
    refine ⟨hc20, ?_, ?_⟩
    · intro hmem
      rcases List.mem_append.mp hmem with h | h
      · rcases List.mem_map.mp h with ⟨i, -, hi⟩
        simp at hi
      · simp at h
    · rw [tickValues_append, tickValues_map_status]
      simp
  · intro env2 hext2
    obtain ⟨d2, hnd⟩ := countdown_nostop env2 hext2 cfg.start_delay_sec initSt rfl
    exact ⟨d2, hnd⟩

/-- C6: a combined interval below the 1 ms minimum (with integer
millisecond inputs, an interval of 0 ms) is rejected synchronously by
`make_config` with the validation error, and `start_clicking` changes
nothing: no worker or thread is created and the run never begins. -/
theorem interval_floor_rejected (ui : UiState)
    (hlt : interval_seconds ui < 1/1000) :
    make_config ui = Except.error intervalErrMsg ∧
    ∀ st, start_clicking ui st = st := by
  have htot : ui.spin_min * 60000 + ui.spin_sec * 1000 + ui.spin_ms = 0 := by
    by_contra hne
    have h1 : (1:ℚ) ≤ ((ui.spin_min * 60000 + ui.spin_sec * 1000 + ui.spin_ms : Nat) : ℚ) := by
      exact_mod_cast Nat.one_le_iff_ne_zero.mpr hne
    rw [interval_seconds] at hlt
    have h2 := (div_lt_div_iff₀ (by norm_num : (0:ℚ) < 1000)
      (by norm_num : (0:ℚ) < 1000)).mp hlt
    push_cast at h1 h2
    linarith
  have hzero : interval_seconds ui = 0 := by
    rw [interval_seconds, htot]
    norm_num
  have hmc : make_config ui = Except.error intervalErrMsg := by
    simp only [make_config]
    rw [if_pos (le_of_eq hzero)]
  refine ⟨hmc, ?_⟩
  intro st
  simp only [start_clicking, hmc]
  simp

/-- C7: a start request while a run is active is a no-op: the whole
controller state — click label, worker identity, thread — is unchanged
and no fresh worker/thread pair is allocated. -/
theorem start_noop_while_running (ui : UiState) (st : CtrlSt)
    (h : st.running = true) :
    start_clicking ui st = st := by
  simp [start_clicking, h]

/-- C10: with fixedPosition enabled, every `_do_click` begins by moving
the pointer to the fixed coordinates and then clicks; with it disabled,
no `moveTo` is ever issued and the click happens at the current pointer
position.  (`_do_click` is invoked unchanged on every tick.) -/
theorem fixed_position_moves (cfg : ClickConfig) :
    (cfg.fixed_pos_enabled = true →
      do_click_actions cfg =
        [SynthAction.moveTo cfg.fixed_x cfg.fixed_y,
         SynthAction.click cfg.button (clicksPerTick cfg)]) ∧
    (cfg.fixed_pos_enabled = false →
      do_click_actions cfg = [SynthAction.click cfg.button (clicksPerTick cfg)] ∧
      ∀ x y, SynthAction.moveTo x y ∉ do_click_actions cfg) := by
  constructor
  · intro h
    cases hd : cfg.double_click <;> simp [do_click_actions, h, hd, clicksPerTick]
  · intro h
    refine ⟨?_, ?_⟩
    · cases hd : cfg.double_click <;> simp [do_click_actions, h, hd, clicksPerTick]
    · intro x y hm
      cases hd : cfg.double_click <;> simp [do_click_actions, h, hd] at hm

/-- C2 (counterexample evaluation): a stop requested before the first
countdown poll of a 1-second-delay run makes the worker emit `stopped`
TWICE — once at the countdown early return (line `self.stopped.emit();
return`) and once more from the `finally` block — so "exactly one stopped
event per run" fails on this input. -/
theorem stopped_double_emission :
    runWorker cfgDelay1 envStop0 5 =
      some ([Event.stopped, Event.stopped],
        { count := 0, next_t := 0, intStop := false, polls := 1, clicks := 0, clocks := 0 }) ∧
    countStopped [Event.stopped, Event.stopped] = 2 := by
  exact ⟨by decide, by decide⟩

set_option maxRecDepth 10000 in
set_option maxHeartbeats 2000000 in
theorem click_limit_boundary_witness :
    cfgLim3.max_clicks ≤ (⟨3, 2, true, 5, 3, 4⟩ : St).count ∧
    (⟨3, 2, true, 5, 3, 4⟩ : St).count < cfgLim3.max_clicks + clicksPerTick cfgLim3 := by
  have h := click_limit_boundary cfgLim3 envOkId 2
    [Event.status runningMsg, Event.started, Event.tick 1, Event.tick 2, Event.tick 3,
      Event.status limitMsg, Event.stopped]
    ⟨3, 2, true, 5, 3, 4⟩
    (by norm_num [runWorker, countdown, outerLoop, innerLoop, stopIsSet, incPolls, incClicks,
      incClocks, addCount, setStop, addNext, setNext, initSt, maxCatchup, ratMax,
      cfgLim3, envOkId, clicksPerTick])
    (by decide)
  exact ⟨h.2.2.1, h.2.2.2.1⟩

theorem catchup_bound_witness :
    ∃ evs st2, innerLoop cfgInf envBurst 1 maxCatchup 1000 initSt = (evs, st2, InnerExit.cond) ∧
      (tickValues evs).length = maxCatchup ∧
      st2.next_t = initSt.next_t + (maxCatchup : ℚ) * 1 := by
  have h := catchup_bound cfgInf envBurst 1 initSt 1000
    (fun _ => rfl) (fun _ => rfl) rfl rfl rfl (by norm_num) (by norm_num [initSt])
  obtain ⟨-, evs, st2, h1, h2, -, -, h5, -⟩ := h
  exact ⟨evs, st2, h1, h2, h5⟩

set_option maxRecDepth 10000 in
set_option maxHeartbeats 2000000 in
theorem failsafe_behavior_witness :
    (⟨1, 1, true, 4, 2, 3⟩ : St).intStop = true ∧
    (⟨1, 1, true, 4, 2, 3⟩ : St).count = clicksPerTick cfgInf *
      (tickValues [Event.status runningMsg, Event.started, Event.tick 1,
        Event.status failsafeMsg, Event.stopped]).length := by
  have h := failsafe_behavior cfgInf envFs1 2
    [Event.status runningMsg, Event.started, Event.tick 1, Event.status failsafeMsg,
      Event.stopped] ⟨1, 1, true, 4, 2, 3⟩
    (by norm_num [runWorker, countdown, outerLoop, innerLoop, stopIsSet, incPolls, incClicks,
      incClocks, addCount, setStop, addNext, setNext, initSt, maxCatchup, ratMax,
      cfgInf, envFs1, clicksPerTick])
    (by decide)
  exact ⟨h.1, h.2.2.1⟩

set_option maxRecDepth 10000 in
set_option maxHeartbeats 2000000 in
theorem error_boundary_witness :
    countErrors [Event.status runningMsg, Event.started, Event.tick 1,
      Event.error "boom", Event.stopped] = 1 := by
  have h := error_boundary cfgInf envErr1 1
    [Event.status runningMsg, Event.started, Event.tick 1, Event.error "boom", Event.stopped]
    ⟨1, 1, false, 3, 2, 3⟩ "boom"
    (by norm_num [runWorker, countdown, outerLoop, innerLoop, stopIsSet, incPolls, incClicks,
      incClocks, addCount, setStop, addNext, setNext, initSt, maxCatchup, ratMax,
      cfgInf, envErr1, clicksPerTick])
    (by decide)
  exact h.1

theorem interval_floor_rejected_witness :
    make_config ui0 = Except.error intervalErrMsg ∧
    start_clicking ui0 { ctrlRun with running := false } = { ctrlRun with running := false } := by
  have h := interval_floor_rejected ui0 (by norm_num [interval_seconds, ui0])
  exact ⟨h.1, h.2 _⟩

theorem start_noop_while_running_witness :
    start_clicking ui0 ctrlRun = ctrlRun :=
  start_noop_while_running ui0 ctrlRun rfl

set_option maxRecDepth 10000 in
set_option maxHeartbeats 2000000 in
theorem tick_stream_monotone_witness :
    ∃ d, tickValues [Event.status runningMsg, Event.started, Event.tick 1, Event.tick 2,
        Event.tick 3, Event.status limitMsg, Event.stopped] =
        List.range' (clicksPerTick cfgLim3) d (clicksPerTick cfgLim3) ∧
      (⟨3, 2, true, 5, 3, 4⟩ : St).count = clicksPerTick cfgLim3 * d ∧
      List.Chain' (fun a b => b = a + clicksPerTick cfgLim3)
        (tickValues [Event.status runningMsg, Event.started, Event.tick 1, Event.tick 2,
          Event.tick 3, Event.status limitMsg, Event.stopped]) :=
  tick_stream_monotone cfgLim3 envOkId 2
    [Event.status runningMsg, Event.started, Event.tick 1, Event.tick 2, Event.tick 3,
      Event.status limitMsg, Event.stopped]
    ⟨3, 2, true, 5, 3, 4⟩
    (by norm_num [runWorker, countdown, outerLoop, innerLoop, stopIsSet, incPolls, incClicks,
      incClocks, addCount, setStop, addNext, setNext, initSt, maxCatchup, ratMax,
      cfgLim3, envOkId, clicksPerTick])

theorem countdown_stop_run_witness :
    ∃ st, runWorker cfgDelay3 envStopK1 5 =
        some ((List.range 1).map
            (fun i => Event.status (startingMsg (cfgDelay3.start_delay_sec - i)))
          ++ [Event.stopped, Event.stopped], st) ∧ st.count = 0 := by
  have h := countdown_stop_run cfgDelay3 envStopK1 5 1 rfl (by decide)
  exact h.1

theorem fixed_position_moves_witness :
    do_click_actions cfgFix =
      [SynthAction.moveTo cfgFix.fixed_x cfgFix.fixed_y,
       SynthAction.click cfgFix.button (clicksPerTick cfgFix)] :=
  (fixed_position_moves cfgFix).1 rfl
